import Mathlib

/-!
Shallow embedding of the VIREL AGI platform front end (TypeScript sources),
covering the PCM codec and base64 transport helpers of
src/components/LoadingBar.tsx (the geminiService part), the live conversation
controller of src/components/LiveConversationFeature.tsx, the video generation
polling loops of GeminiService, and the global loading counter of
src/contexts/LoadingContext.tsx.

Strings that carry binary or base64 payloads are modelled as lists of
character codes (Nat), bytes as Nat values below 256.  Float samples are
modelled as rationals: every float32 value is a rational, and the only
arithmetic the codec performs on them (multiplication by the power of two
32768, division by 32768) is exact in float64, so rational arithmetic is a
faithful model on float32 inputs.
-/

namespace Virel

/-- Base64 alphabet of the browser builtins btoa and atob: maps a 6-bit
index (0..63) to the ASCII code of its digit (A..Z, a..z, 0..9, +, /). -/
def b64char (n : Nat) : Nat :=
  if n < 26 then 65 + n
  else if n < 52 then 97 + (n - 26)
  else if n < 62 then 48 + (n - 52)
  else if n = 62 then 43
  else 47

/-- Inverse base64 alphabet: ASCII code of a digit back to its 6-bit index. -/
def b64index (c : Nat) : Nat :=
  if 65 ≤ c ∧ c ≤ 90 then c - 65
  else if 97 ≤ c ∧ c ≤ 122 then c - 97 + 26
  else if 48 ≤ c ∧ c ≤ 57 then c - 48 + 52
  else if c = 43 then 62
  else 63

/-- Model of the browser builtin btoa (not part of the repository sources:
it is the standard base64 encoder the source functions encode and decode in
LoadingBar.tsx delegate to).  Input is the binary string as byte values,
output the base64 string as character codes; 61 is the code of the padding
character. -/
def btoa : List Nat → List Nat
  | [] => []
  | [a] =>
    [b64char (a / 4), b64char (a % 4 * 16), 61, 61]
  | [a, b] =>
    [b64char (a / 4), b64char (a % 4 * 16 + b / 16), b64char (b % 16 * 4), 61]
  | a :: b :: c :: rest =>
    b64char (a / 4) :: b64char (a % 4 * 16 + b / 16) ::
      b64char (b % 16 * 4 + c / 64) :: b64char (c % 64) :: btoa rest

/-- Model of the browser builtin atob, the inverse of btoa: base64 character
codes back to the byte values of the binary string. -/
def atob : List Nat → List Nat
  | c1 :: c2 :: c3 :: c4 :: rest =>
    if c3 = 61 then
      [b64index c1 * 4 + b64index c2 / 16]
    else if c4 = 61 then
      [b64index c1 * 4 + b64index c2 / 16,
       b64index c2 % 16 * 16 + b64index c3 / 4]
    else
      (b64index c1 * 4 + b64index c2 / 16) ::
      (b64index c2 % 16 * 16 + b64index c3 / 4) ::
      (b64index c3 % 4 * 64 + b64index c4) :: atob rest
  | _ => []

/-- Embedding of the source function encode (LoadingBar.tsx lines 101-108):
it builds the binary string whose character codes are the bytes and applies
btoa; on the character-code representation that is btoa itself. -/
def encode (bytes : List Nat) : List Nat := btoa bytes

/-- Embedding of the source function decode (LoadingBar.tsx lines 72-80):
atob followed by reading the character codes back into a byte array; on the
character-code representation that is atob itself. -/
def decode (base64 : List Nat) : List Nat := atob base64

/-- Truncation of a rational toward zero, as the JavaScript ToInteger step of
an Int16Array element assignment performs on the scaled sample. -/
def truncJS (q : ℚ) : Int := if 0 ≤ q then ⌊q⌋ else ⌈q⌉

/-- Reduction of an integer to the stored 16-bit word (0..65535), as the
Int16Array element assignment int16[i] = data[i] * 32768 performs: modulo
2^16 with no clamping. -/
def uint16OfInt (v : Int) : Nat := (v % 65536).toNat

/-- Signed value of a stored 16-bit word: what reading the Int16Array element
back yields (two-complement, -32768..32767). -/
def int16OfWord (w : Nat) : Int := if w < 32768 then (w : Int) else (w : Int) - 65536

/-- Stored 16-bit word produced for one float sample by the loop of
createPcmBlob (LoadingBar.tsx line 114): scale by 32768, truncate toward
zero, reduce modulo 2^16. -/
def pcm16OfSample (q : ℚ) : Nat := uint16OfInt (truncJS (q * 32768))

/-- Little-endian byte pair of a stored 16-bit word, modelling the
Uint8Array view of the Int16Array buffer taken at LoadingBar.tsx line 117. -/
def leBytesOfWord (w : Nat) : List Nat := [w % 256, w / 256]

/-- Modelled from the spec: the fixed capture sample rate of section 4.4
(the constants file imported as ../constants is not among the sources); the
numeric value does not influence any claim. -/
def LIVE_API_INPUT_SAMPLE_RATE : Nat := 16000

/-- Modelled from the spec: the fixed playback sample rate of section 4.4,
distinct from the capture rate; the numeric value does not influence any
claim. -/
def LIVE_API_OUTPUT_SAMPLE_RATE : Nat := 24000

/-- Modelled from the spec: mono audio (section 4.1 de-interleaves by
channel; the live pipeline uses one channel throughout). -/
def LIVE_API_AUDIO_CHANNELS : Nat := 1

/-- Embedding of the CustomBlob value createPcmBlob returns: base64 payload
(as character codes) plus mime descriptor. -/
structure CustomBlob where
  data : List Nat
  mimeType : String
deriving DecidableEq, Repr

/-- Embedding of createPcmBlob (LoadingBar.tsx lines 110-120): build the
Int16Array by scaling and truncating each sample, view its buffer as bytes
(little endian), base64-encode via encode. -/
def createPcmBlob (data : List ℚ) : CustomBlob :=
  { data := encode ((data.map pcm16OfSample).flatMap leBytesOfWord)
    mimeType := "audio/pcm;rate=" ++ toString LIVE_API_INPUT_SAMPLE_RATE }

/-- Reinterpretation of a byte list as little-endian signed 16-bit values,
modelling new Int16Array(data.buffer) at LoadingBar.tsx line 88.  Bytes come
from a Uint8Array, hence are below 256; a trailing odd byte cannot occur on
the inputs the claims use (the browser would reject an odd-length buffer). -/
def bytesToInt16LE : List Nat → List Int
  | b0 :: b1 :: rest => int16OfWord (b0 + b1 * 256) :: bytesToInt16LE rest
  | _ => []

/-- Embedding of the AudioBuffer that decodeAudioData produces: sample rate,
frame count and per-channel float data. -/
structure AudioBufferModel where
  sampleRate : Nat
  frameCount : Nat
  channels : List (List ℚ)
deriving DecidableEq, Repr

/-- Duration in seconds of a decoded buffer, as the AudioBuffer duration
property: frame count over sample rate. -/
def AudioBufferModel.duration (b : AudioBufferModel) : ℚ :=
  (b.frameCount : ℚ) / (b.sampleRate : ℚ)

/-- Embedding of decodeAudioData (LoadingBar.tsx lines 82-99): reinterpret
the bytes as Int16 values, de-interleave by channel, divide each sample by
32768. -/
def decodeAudioData (data : List Nat) (sampleRate : Nat) (numChannels : Nat) :
    AudioBufferModel :=
  let dataInt16 := bytesToInt16LE data
  let frameCount := dataInt16.length / numChannels
  { sampleRate := sampleRate
    frameCount := frameCount
    channels := (List.range numChannels).map (fun channel =>
      (List.range frameCount).map (fun i =>
        ((dataInt16.getD (i * numChannels + channel) 0 : Int) : ℚ) / 32768)) }

/-- Embedding of ChatMessageType (types.ts) as used for transcript history
entries. -/
inductive ChatMessageType where
  | user
  | model
deriving DecidableEq, Repr

/-- Handle of an AudioBufferSourceNode created in the audioChunk branch of
onmessage: an identifier plus the playback interval it was started with. -/
structure SourceNode where
  id : Nat
  startAt : ℚ
  duration : ℚ
deriving DecidableEq, Repr

/-- State of LiveConversationFeature (LiveConversationFeature.tsx): the
React state cells (isRecording, transcriptions, history, status, error) and
the mutable refs (session, script processor, stream, the two audio contexts,
next playback start time, active source set).  Handle-valued refs are
modelled by a Bool that is true exactly when the ref holds a live handle.
The extra fields stopped, nextSourceId and sent record observable effects:
which sources have been stopped, an id supply for created sources, and the
realtime input blobs forwarded to the transport. -/
structure LiveState where
  isRecording : Bool
  currentInputTranscription : String
  currentOutputTranscription : String
  transcriptionHistory : List (ChatMessageType × String)
  statusMessage : String
  error : Option String
  sessionOpen : Bool
  scriptProcessorOpen : Bool
  streamOpen : Bool
  inputCtxOpen : Bool
  outputCtxOpen : Bool
  nextStartTime : ℚ
  sources : List SourceNode
  stopped : List Nat
  nextSourceId : Nat
  sent : List CustomBlob
deriving DecidableEq, Repr

/-- Embedding of stopRecording (LiveConversationFeature.tsx lines 67-99).
Every handle is closed and nulled behind a null check, all active sources
are stopped and the set cleared, the playback floor and the running
transcripts are reset, and the error is cleared only when resetError is
true (the source default; the call sites that must preserve a prior error
pass false). -/
def stopRecording (s : LiveState) (resetError : Bool) : LiveState :=
  { isRecording := false
    currentInputTranscription := ""
    currentOutputTranscription := ""
    transcriptionHistory := s.transcriptionHistory
    statusMessage := "Conversation ended."
    error := if resetError then none else s.error
    sessionOpen := false
    scriptProcessorOpen := false
    streamOpen := false
    inputCtxOpen := false
    outputCtxOpen := false
    nextStartTime := 0
    sources := []
    stopped := s.stopped ++ s.sources.map SourceNode.id
    nextSourceId := s.nextSourceId
    sent := s.sent }

/-- Embedding of the onerror callback (LiveConversationFeature.tsx lines
203-209): set the error and status, then call stopRecording() — with no
argument, so resetError takes its default value true. -/
def onerrorHandler (etype : String) (s : LiveState) : LiveState :=
  stopRecording
    { s with
      error := some ("Live Session error: " ++ etype)
      statusMessage := "Error occurred." }
    true

/-- Embedding of the onclose callback (LiveConversationFeature.tsx lines
210-221): on an abnormal close code set an error, then stopRecording(false). -/
def oncloseHandler (code : Nat) (reason : String) (s : LiveState) : LiveState :=
  let s1 :=
    if code ≠ 1000 then
      { s with
        error := some ("Live Session closed unexpectedly: " ++ toString code ++ " - " ++ reason)
        statusMessage := "Session closed due to error." }
    else
      { s with statusMessage := "Conversation ended." }
  stopRecording s1 false

/-- Embedding of the unmount cleanup effect (LiveConversationFeature.tsx
lines 102-108): stopRecording(false). -/
def cleanupUnmount (s : LiveState) : LiveState :=
  stopRecording s false

/-- Embedding of the onaudioprocess callback (LiveConversationFeature.tsx
lines 137-145): encode the current frame, and forward it to the transport
only if the session ref still holds a handle; otherwise nothing happens. -/
def onaudioprocess (frame : List ℚ) (s : LiveState) : LiveState :=
  let pcmBlob := createPcmBlob frame
  if s.sessionOpen then { s with sent := s.sent ++ [pcmBlob] } else s

/-- Inbound server message, the shape the onmessage callback inspects:
optional transcription deltas, the turnComplete flag, optional inline audio
(base64 character codes), and the interrupted flag. -/
structure ServerMessage where
  outputTranscriptionDelta : Option String
  inputTranscriptionDelta : Option String
  turnComplete : Bool
  audioData : Option (List Nat)
  interrupted : Bool
deriving DecidableEq, Repr

/-- Embedding of the onmessage callback (LiveConversationFeature.tsx lines
149-201).  The cap argument holds the transcript values the callback closure
captured: the callbacks object is created once inside startRecording, so the
identifiers currentInputTranscription and currentOutputTranscription inside
onmessage denote the React state values of the render in which the session
was started, not the state at event time.  The functional setState updates
(the delta appends and the history pushes) operate on current state; the
refs (output context, next start time, source set) are mutable cells and are
always current.  The clock argument is outputAudioContext.currentTime at the
moment the audioChunk branch runs. -/
def onmessageHandler (cap : String × String) (clock : ℚ) (m : ServerMessage)
    (s : LiveState) : LiveState :=
  -- lines 150-154: transcription deltas (an else-if chain in the source)
  let s1 :=
    match m.outputTranscriptionDelta with
    | some d => { s with currentOutputTranscription := s.currentOutputTranscription ++ d }
    | none =>
      match m.inputTranscriptionDelta with
      | some d => { s with currentInputTranscription := s.currentInputTranscription ++ d }
      | none => s
  -- lines 156-165: turnComplete commits the closure-captured transcript
  -- values (cap), then clears the running transcripts
  let s2 :=
    if m.turnComplete then
      let sa :=
        if cap.1 ≠ "" then
          { s1 with transcriptionHistory :=
              s1.transcriptionHistory ++ [(ChatMessageType.user, cap.1)] }
        else s1
      let sb :=
        if cap.2 ≠ "" then
          { sa with transcriptionHistory :=
              sa.transcriptionHistory ++ [(ChatMessageType.model, cap.2)] }
        else sa
      { sb with currentInputTranscription := "", currentOutputTranscription := "" }
    else s1
  -- lines 167-189: inline audio is decoded and scheduled against the
  -- playback clock; the start floor is raised to the clock first
  let s3 :=
    match m.audioData with
    | some b64 =>
      if s2.outputCtxOpen then
        let nst := max s2.nextStartTime clock
        let buffer := decodeAudioData (decode b64) LIVE_API_OUTPUT_SAMPLE_RATE
          LIVE_API_AUDIO_CHANNELS
        { s2 with
          nextStartTime := nst + buffer.duration
          sources := s2.sources ++
            [{ id := s2.nextSourceId, startAt := nst, duration := buffer.duration }]
          nextSourceId := s2.nextSourceId + 1 }
      else s2
    | none => s2
  -- lines 191-201: interrupted stops and clears every active source, resets
  -- the start floor and clears the running transcripts
  if m.interrupted then
    { s3 with
      stopped := s3.stopped ++ s3.sources.map SourceNode.id
      sources := []
      nextStartTime := 0
      currentInputTranscription := ""
      currentOutputTranscription := "" }
  else s3

/-- State of the controller right after startRecording has connected and the
onopen callback has run: all handles live, recording, transcripts empty. -/
def openedState : LiveState :=
  { isRecording := true
    currentInputTranscription := ""
    currentOutputTranscription := ""
    transcriptionHistory := []
    statusMessage := "Recording..."
    error := none
    sessionOpen := true
    scriptProcessorOpen := true
    streamOpen := true
    inputCtxOpen := true
    outputCtxOpen := true
    nextStartTime := 0
    sources := []
    stopped := []
    nextSourceId := 0
    sent := [] }

/-- Run of a list of (clock reading, message) events through the onmessage
callback of one session.  The captured transcript pair is fixed once, at
session start, from the start state: the callbacks object and its closures
are created exactly once inside startRecording. -/
def runLiveCallbacks (events : List (ℚ × ServerMessage)) (s0 : LiveState) : LiveState :=
  events.foldl
    (fun s e =>
      onmessageHandler (s0.currentInputTranscription, s0.currentOutputTranscription)
        e.1 e.2 s)
    s0

/-- Message carrying only a user (input) transcription delta. -/
def inputDeltaMsg (d : String) : ServerMessage :=
  { outputTranscriptionDelta := none
    inputTranscriptionDelta := some d
    turnComplete := false
    audioData := none
    interrupted := false }

/-- Message carrying only a model (output) transcription delta. -/
def outputDeltaMsg (d : String) : ServerMessage :=
  { outputTranscriptionDelta := some d
    inputTranscriptionDelta := none
    turnComplete := false
    audioData := none
    interrupted := false }

/-- Message carrying only the turnComplete flag. -/
def turnCompleteMsg : ServerMessage :=
  { outputTranscriptionDelta := none
    inputTranscriptionDelta := none
    turnComplete := true
    audioData := none
    interrupted := false }

/-- Message carrying only the interrupted flag. -/
def interruptedMsg : ServerMessage :=
  { outputTranscriptionDelta := none
    inputTranscriptionDelta := none
    turnComplete := false
    audioData := none
    interrupted := true }

/-- Message carrying only inline audio data. -/
def audioChunkMsg (b64 : List Nat) : ServerMessage :=
  { outputTranscriptionDelta := none
    inputTranscriptionDelta := none
    turnComplete := false
    audioData := some b64
    interrupted := false }

/-- One scheduling step of the playback scheduler embedded in the audioChunk
branch (LiveConversationFeature.tsx lines 169-188): raise the start floor to
the clock, start the buffer there, advance the floor by the buffer duration.
Returns the start time together with the new floor. -/
def scheduleNext (nextStartTime clock duration : ℚ) : ℚ × ℚ :=
  let startAt := max nextStartTime clock
  (startAt, startAt + duration)

/-- Fold of scheduleNext over a sequence of (clock reading, duration) pairs,
returning the (start time, duration) interval of every scheduled buffer in
order. -/
def scheduleAll : ℚ → List (ℚ × ℚ) → List (ℚ × ℚ)
  | _, [] => []
  | nst, c :: rest =>
    (max nst c.1, c.2) :: scheduleAll (max nst c.1 + c.2) rest

/-- Long-running video operation as the polling loops observe it: the done
flag and the download link the completed response may carry
(operation.response.generatedVideos[0].video.uri). -/
structure VideosOperation where
  done : Bool
  uri : Option String
deriving DecidableEq, Repr

/-- Observable step of a video generation call: the initial generateVideos
request, a timer wait of the given milliseconds, or one
getVideosOperation poll. -/
inductive VideoStep where
  | initiate
  | wait (ms : Nat)
  | poll
deriving DecidableEq, Repr

/-- Embedding of the while loop of generateVideoFromText and
generateVideoFromImage (LoadingBar.tsx lines 259-263 and 309-313): while the
operation is not done, wait 10000 milliseconds and poll again.  The oracle
ops gives the operation as observed after each poll (ops 0 is the result of
the initial generateVideos call, ops (i+1) the result of the i-th
getVideosOperation call); fuel bounds the number of observations modelled,
and none is returned when the loop is still running after them.  The second
component is the trace of waits and polls the loop performed. -/
def pollVideosLoop (ops : Nat → VideosOperation) :
    Nat → Nat → Option VideosOperation × List VideoStep
  | 0, _ => (none, [])
  | fuel + 1, i =>
    if (ops i).done then (some (ops i), [])
    else
      let r := pollVideosLoop ops fuel (i + 1)
      (r.1, VideoStep.wait 10000 :: VideoStep.poll :: r.2)

/-- Outcome of a completed video operation (LoadingBar.tsx lines 265-268 and
315-318): if no download link is present the call throws the error
No video download link found, otherwise it proceeds to fetch the link. -/
def videoOutcome (op : VideosOperation) : Except String String :=
  match op.uri with
  | none => Except.error "No video download link found."
  | some u => Except.ok u

/-- Embedding of GeminiService.generateVideoFromText (LoadingBar.tsx lines
240-281), abstracted over the operation oracle: issue the single
generateVideos request, run the polling loop, then either throw for a
missing download link or return it.  The prompt, aspect ratio, resolution
and progress callback only shape the request payload and progress strings,
not the control flow modelled here. -/
def generateVideoFromText (ops : Nat → VideosOperation) (fuel : Nat) :
    Option (Except String String) × List VideoStep :=
  let r := pollVideosLoop ops fuel 0
  (r.1.map videoOutcome, VideoStep.initiate :: r.2)

/-- Embedding of GeminiService.generateVideoFromImage (LoadingBar.tsx lines
284-330), abstracted over the operation oracle; its polling and error
handling are the same as the text variant, the image only enlarges the
initial request payload. -/
def generateVideoFromImage (ops : Nat → VideosOperation) (fuel : Nat) :
    Option (Except String String) × List VideoStep :=
  let r := pollVideosLoop ops fuel 0
  (r.1.map videoOutcome, VideoStep.initiate :: r.2)

/-- Oracle for a concrete polling run: the operation is observed done on the
third observation and the completed operation carries no download link. -/
def sampleVideoOps : Nat → VideosOperation := fun k =>
  if k = 2 then { done := true, uri := none } else { done := false, uri := none }

/-- One call observable on the loading context (LoadingContext.tsx):
incrementLoading or decrementLoading. -/
inductive LoadingOp where
  | inc
  | dec
deriving DecidableEq, Repr

/-- Embedding of the two setActiveRequests updaters (LoadingContext.tsx
lines 9-15): increment adds one, decrement takes max(0, prev - 1). -/
def applyLoadingOp (n : Int) (op : LoadingOp) : Int :=
  match op with
  | LoadingOp.inc => n + 1
  | LoadingOp.dec => max 0 (n - 1)

/-- Value of the activeRequests counter after a sequence of calls, starting
from the initial state 0. -/
def runLoading (ops : List LoadingOp) : Int :=
  ops.foldl applyLoadingOp 0

/-- Embedding of the derived isLoading flag (LoadingContext.tsx line 17):
activeRequests > 0. -/
def isLoadingFlag (n : Int) : Bool :=
  decide (0 < n)

/-! Theorems.  First the supporting lemmas about the base64 transport and
the PCM sample transform, then one theorem per claim. -/

/-- Decoding a base64 digit produced from a 6-bit index recovers the index. -/
theorem b64index_b64char : ∀ n : Nat, n < 64 → b64index (b64char n) = n := by decide

/-- No base64 digit is the padding character (code 61). -/
theorem b64char_ne_pad : ∀ n : Nat, n < 64 → b64char n ≠ 61 := by decide

/-- Round trip of the modelled browser builtins: atob inverts btoa on every
byte list. -/
theorem atob_btoa : ∀ l : List Nat, (∀ b ∈ l, b < 256) → atob (btoa l) = l
  | [], _ => rfl
  | [a], h => by
    have ha : a < 256 := h a (by simp)
    have h1 : a / 4 < 64 := by omega
    have h2 : a % 4 * 16 < 64 := by omega
    simp only [btoa, atob, if_true]
    rw [b64index_b64char _ h1, b64index_b64char _ h2]
    simp only [List.cons.injEq, and_true]
    omega
  | [a, b], h => by
    have ha : a < 256 := h a (by simp)
    have hb : b < 256 := h b (by simp)
    have h1 : a / 4 < 64 := by omega
    have h2 : a % 4 * 16 + b / 16 < 64 := by omega
    have h3 : b % 16 * 4 < 64 := by omega
    simp only [btoa, atob]
    rw [if_neg (b64char_ne_pad _ h3)]
    simp only [if_true]
    rw [b64index_b64char _ h1, b64index_b64char _ h2, b64index_b64char _ h3]
    simp only [List.cons.injEq, and_true]
    exact ⟨by omega, by omega⟩
  | a :: b :: c :: rest, h => by
    have ha : a < 256 := h a (by simp)
    have hb : b < 256 := h b (by simp)
    have hc : c < 256 := h c (by simp)
    have ih := atob_btoa rest (fun x hx => h x (by simp [hx]))
    have h1 : a / 4 < 64 := by omega
    have h2 : a % 4 * 16 + b / 16 < 64 := by omega
    have h3 : b % 16 * 4 + c / 64 < 64 := by omega
    have h4 : c % 64 < 64 := by omega
    simp only [btoa, atob]
    rw [if_neg (b64char_ne_pad _ h3), if_neg (b64char_ne_pad _ h4),
      b64index_b64char _ h1, b64index_b64char _ h2, b64index_b64char _ h3,
      b64index_b64char _ h4, ih]
    simp only [List.cons.injEq, and_true]
    exact ⟨by omega, by omega, by omega⟩

/-- The stored 16-bit word of every sample is below 2^16. -/
theorem pcm16OfSample_lt (q : ℚ) : pcm16OfSample q < 65536 := by
  unfold pcm16OfSample uint16OfInt
  have h1 := Int.emod_nonneg (truncJS (q * 32768)) (by norm_num : (65536 : ℤ) ≠ 0)
  have h2 := Int.emod_lt_of_pos (truncJS (q * 32768)) (by norm_num : (0 : ℤ) < 65536)
  omega

/-- Every byte of the little-endian serialization of 16-bit words is below
256. -/
theorem mem_flatMap_leBytes_lt {ws : List Nat} (hw : ∀ w ∈ ws, w < 65536) :
    ∀ b ∈ ws.flatMap leBytesOfWord, b < 256 := by
  intro b hb
  simp only [List.mem_flatMap, leBytesOfWord, List.mem_cons, List.not_mem_nil,
    or_false] at hb
  obtain ⟨w, hwmem, hb⟩ := hb
  have := hw w hwmem
  rcases hb with rfl | rfl <;> omega

/-- Reading the little-endian serialization of 16-bit words back as an
Int16Array recovers the signed value of each word. -/
theorem bytesToInt16LE_flatMap : ∀ ws : List Nat, (∀ w ∈ ws, w < 65536) →
    bytesToInt16LE (ws.flatMap leBytesOfWord) = ws.map (fun w => int16OfWord w)
  | [], _ => rfl
  | w :: t, hw => by
    have hwlt : w < 65536 := hw w (by simp)
    have hrec := bytesToInt16LE_flatMap t (fun x hx => hw x (by simp [hx]))
    have hsplit : w % 256 + w / 256 * 256 = w := by omega
    have hstep : (w :: t).flatMap leBytesOfWord =
        w % 256 :: w / 256 :: t.flatMap leBytesOfWord := by
      simp [List.flatMap_cons, leBytesOfWord]
    rw [hstep, bytesToInt16LE, hsplit, hrec, List.map_cons]

/-- Indexed read-back of a list over its range of positions is the list
itself (specialised to the divide-by-32768 transform of decodeAudioData). -/
theorem range_map_getD : ∀ L : List Int,
    (List.range L.length).map (fun i => ((L.getD i 0 : Int) : ℚ) / 32768) =
      L.map (fun v => ((v : Int) : ℚ) / 32768)
  | [] => rfl
  | a :: t => by
    rw [List.length_cons, List.range_succ_eq_map, List.map_cons, List.map_map]
    have hcomp : ((fun i => (((a :: t).getD i 0 : Int) : ℚ) / 32768) ∘ Nat.succ) =
        fun i => ((t.getD i 0 : Int) : ℚ) / 32768 := by
      funext i
      simp [List.getD_cons_succ]
    rw [hcomp, range_map_getD t]
    simp [List.getD_cons_zero]

/-- Mono decodeAudioData is the signed Int16 read-back divided by 32768,
sample for sample. -/
theorem decodeAudioData_mono (data : List Nat) (r : Nat) :
    (decodeAudioData data r 1).channels =
      [(bytesToInt16LE data).map (fun v => ((v : Int) : ℚ) / 32768)] := by
  unfold decodeAudioData
  have hr1 : List.range 1 = [0] := rfl
  simp only [hr1, List.map_cons, List.map_nil, Nat.div_one, Nat.mul_one, Nat.add_zero]
  rw [range_map_getD]

/-- Storing an integer already in the signed 16-bit range and reading it
back is the identity. -/
theorem int16OfWord_uint16OfInt (t : Int) (h1 : -32768 ≤ t) (h2 : t < 32768) :
    int16OfWord (uint16OfInt t) = t := by
  simp only [int16OfWord, uint16OfInt]
  have hnn := Int.emod_nonneg t (by norm_num : (65536 : ℤ) ≠ 0)
  have hlt := Int.emod_lt_of_pos t (by norm_num : (0 : ℤ) < 65536)
  split <;> omega

/-- Elementary bounds of the truncation toward zero: for y in the stored
range the truncated value stays in the signed 16-bit range and within
distance one of y. -/
theorem truncJS_bounds (y : ℚ) (h1 : -32768 ≤ y) (h2 : y < 32768) :
    -32768 ≤ truncJS y ∧ truncJS y < 32768 ∧ |((truncJS y : Int) : ℚ) - y| ≤ 1 := by
  unfold truncJS
  split
  · rename_i h0
    have hfl := Int.floor_le y
    have hfl2 := Int.sub_one_lt_floor y
    have hge : (0 : ℤ) ≤ ⌊y⌋ := Int.floor_nonneg.mpr h0
    have hlt : ⌊y⌋ < (32768 : ℤ) := by
      rw [Int.floor_lt]
      exact_mod_cast h2
    refine ⟨by omega, hlt, ?_⟩
    rw [abs_le]
    constructor <;> linarith
  · rename_i h0
    push_neg at h0
    have hce := Int.le_ceil y
    have hce2 := Int.ceil_lt_add_one y
    have hle : ⌈y⌉ ≤ (0 : ℤ) := Int.ceil_le.mpr (by exact_mod_cast h0.le)
    have hge : (-32768 : ℤ) ≤ ⌈y⌉ := by
      have : ((-32768 : ℤ) : ℚ) ≤ (⌈y⌉ : ℚ) := by
        calc ((-32768 : ℤ) : ℚ) = (-32768 : ℚ) := by norm_num
          _ ≤ y := h1
          _ ≤ (⌈y⌉ : ℚ) := hce
      exact_mod_cast this
    refine ⟨hge, by omega, ?_⟩
    rw [abs_le]
    constructor <;> linarith

/-- Per-sample round trip: for a sample in the half-open interval from -1
(inclusive) to 1 (exclusive), decoding the stored 16-bit word recovers the
sample within absolute error 1/32768. -/
theorem sample_roundtrip_close (q : ℚ) (h1 : -1 ≤ q) (h2 : q < 1) :
    |((int16OfWord (pcm16OfSample q) : Int) : ℚ) / 32768 - q| ≤ 1 / 32768 := by
  have hy1 : -32768 ≤ q * 32768 := by nlinarith
  have hy2 : q * 32768 < 32768 := by nlinarith
  obtain ⟨ht1, ht2, ht3⟩ := truncJS_bounds (q * 32768) hy1 hy2
  have hpcm : int16OfWord (pcm16OfSample q) = truncJS (q * 32768) :=
    int16OfWord_uint16OfInt _ ht1 ht2
  rw [hpcm]
  have hq : ((truncJS (q * 32768) : Int) : ℚ) / 32768 - q =
      (((truncJS (q * 32768) : Int) : ℚ) - q * 32768) / 32768 := by
    ring
  rw [hq, abs_div, abs_of_pos (by norm_num : (0 : ℚ) < 32768)]
  have h32 : (0 : ℚ) < 32768 := by norm_num
  rw [div_le_div_iff₀ h32 h32]
  nlinarith [ht3]

/-- Decoding the transported payload of createPcmBlob recovers the
little-endian byte stream of the stored 16-bit words. -/
theorem decode_createPcmBlob (x : List ℚ) :
    decode (createPcmBlob x).data = (x.map pcm16OfSample).flatMap leBytesOfWord := by
  have hws : ∀ w ∈ x.map pcm16OfSample, w < 65536 := by
    intro w hw
    simp only [List.mem_map] at hw
    obtain ⟨q, _, rfl⟩ := hw
    exact pcm16OfSample_lt q
  exact atob_btoa _ (mem_flatMap_leBytes_lt hws)

/-- Mono channel data obtained by decoding back an encoded sample list:
each sample becomes the signed value of its stored word, divided by 32768. -/
theorem decode_channel_eq (x : List ℚ) :
    (decodeAudioData (decode (createPcmBlob x).data) LIVE_API_INPUT_SAMPLE_RATE
        LIVE_API_AUDIO_CHANNELS).channels.headD [] =
      x.map (fun q => ((int16OfWord (pcm16OfSample q) : Int) : ℚ) / 32768) := by
  have hws : ∀ w ∈ x.map pcm16OfSample, w < 65536 := by
    intro w hw
    simp only [List.mem_map] at hw
    obtain ⟨q, _, rfl⟩ := hw
    exact pcm16OfSample_lt q
  rw [decode_createPcmBlob]
  show (decodeAudioData _ LIVE_API_INPUT_SAMPLE_RATE 1).channels.headD [] = _
  rw [decodeAudioData_mono, bytesToInt16LE_flatMap _ hws]
  simp only [List.map_map, List.headD_cons]
  rfl

/-- Truncation toward zero of an integer value is that integer. -/
theorem truncJS_intCast (z : ℤ) : truncJS (z : ℚ) = z := by
  unfold truncJS
  split
  · exact Int.floor_intCast z
  · exact Int.ceil_intCast z

/-- Evaluation rule for the stored word of a sample whose scaling by 32768
is the integer z. -/
theorem pcm16OfSample_eval (q : ℚ) (z : ℤ) (hz : q * 32768 = (z : ℚ)) :
    pcm16OfSample q = (z % 65536).toNat := by
  unfold pcm16OfSample
  rw [hz, truncJS_intCast]
  rfl

/-- C4 counterexample: the claim fails at the in-range float32 sample 1.
Encoding 1 stores trunc(1 * 32768) = 32768, which wraps to -32768 in the
Int16Array, so the decoded sample is -1, at distance 2 from the original —
far above 1/32768. -/
theorem c4_roundtrip_fails_at_one :
    (-1 ≤ (1 : ℚ) ∧ (1 : ℚ) ≤ 1) ∧
    (decodeAudioData (decode (createPcmBlob [(1 : ℚ)]).data) LIVE_API_INPUT_SAMPLE_RATE
        LIVE_API_AUDIO_CHANNELS).channels.headD [] = [(-1 : ℚ)] ∧
    ¬ |(-1 : ℚ) - 1| ≤ 1 / 32768 := by
  refine ⟨by norm_num, ?_, by norm_num⟩
  rw [decode_channel_eq]
  have h1 : pcm16OfSample 1 = 32768 := by
    rw [pcm16OfSample_eval 1 32768 (by norm_num)]
    rfl
  simp only [List.map_cons, List.map_nil, h1]
  norm_num [int16OfWord]

/-- C4 (amended): for every sequence of float32 samples in the half-open
interval -1 ≤ q < 1 (the claim stated the closed interval; it fails at the
right endpoint 1, see the counterexample), decoding the result of encoding
it at matching sample rate and channel count yields a sequence of the same
length in which every sample is within 1/32768 of the original. -/
theorem c4_pcm_roundtrip (x : List ℚ) (h : ∀ q ∈ x, -1 ≤ q ∧ q < 1) :
    ((decodeAudioData (decode (createPcmBlob x).data) LIVE_API_INPUT_SAMPLE_RATE
        LIVE_API_AUDIO_CHANNELS).channels.headD []).length = x.length ∧
    List.Forall₂ (fun a b : ℚ => |b - a| ≤ 1 / 32768) x
      ((decodeAudioData (decode (createPcmBlob x).data) LIVE_API_INPUT_SAMPLE_RATE
        LIVE_API_AUDIO_CHANNELS).channels.headD []) := by
  rw [decode_channel_eq]
  refine ⟨by simp, ?_⟩
  rw [List.forall₂_map_right_iff, List.forall₂_same]
  intro q hq
  exact sample_roundtrip_close q (h q hq).1 (h q hq).2

/-- C4 witness: the amended round-trip theorem applied to the concrete
sample list with entries 1/2 and -1/4. -/
theorem c4_pcm_roundtrip_witness :
    ((decodeAudioData (decode (createPcmBlob [(1 : ℚ)/2, -(1 : ℚ)/4]).data)
        LIVE_API_INPUT_SAMPLE_RATE LIVE_API_AUDIO_CHANNELS).channels.headD []).length =
      ([(1 : ℚ)/2, -(1 : ℚ)/4] : List ℚ).length ∧
    List.Forall₂ (fun a b : ℚ => |b - a| ≤ 1 / 32768) [(1 : ℚ)/2, -(1 : ℚ)/4]
      ((decodeAudioData (decode (createPcmBlob [(1 : ℚ)/2, -(1 : ℚ)/4]).data)
        LIVE_API_INPUT_SAMPLE_RATE LIVE_API_AUDIO_CHANNELS).channels.headD []) :=
  c4_pcm_roundtrip [(1 : ℚ)/2, -(1 : ℚ)/4] (by norm_num)

/-- C5: createPcmBlob emits, base64-encoded, the little-endian bytes of the
16-bit words obtained by scaling each sample by 32768 and truncating, with
no clamping: decoding the transported payload recovers exactly those words
(first conjunct), and for the out-of-range samples 2 and 3/2 the stored
value silently wraps modulo 2^16 (2 maps to word 0, i.e. not the saturated
maximum 32767; 3/2 maps to the negative value -16384). -/
theorem c5_encode_no_clamping (data : List ℚ) :
    decode (createPcmBlob data).data = (data.map pcm16OfSample).flatMap leBytesOfWord ∧
    bytesToInt16LE (decode (createPcmBlob data).data) =
      data.map (fun q => int16OfWord (pcm16OfSample q)) ∧
    ¬ (-1 ≤ (2 : ℚ) ∧ (2 : ℚ) ≤ 1) ∧
    pcm16OfSample 2 = 0 ∧
    int16OfWord (pcm16OfSample 2) ≠ 32767 ∧
    int16OfWord (pcm16OfSample (3/2)) = -16384 := by
  have hws : ∀ w ∈ data.map pcm16OfSample, w < 65536 := by
    intro w hw
    simp only [List.mem_map] at hw
    obtain ⟨q, _, rfl⟩ := hw
    exact pcm16OfSample_lt q
  have h2 : pcm16OfSample 2 = 0 := by
    rw [pcm16OfSample_eval 2 65536 (by norm_num)]
    rfl
  have h32 : pcm16OfSample (3/2 : ℚ) = 49152 := by
    rw [pcm16OfSample_eval (3/2 : ℚ) 49152 (by norm_num)]
    rfl
  refine ⟨decode_createPcmBlob data, ?_, by norm_num, h2, ?_, ?_⟩
  · rw [decode_createPcmBlob, bytesToInt16LE_flatMap _ hws, List.map_map]
    rfl
  · rw [h2]
    decide
  · rw [h32]
    decide

/-- C1 (code bug): in a session opened with empty transcripts, deliver an
input delta hello and an output delta hi there — the running transcripts
are then hello and hi there exactly as the claim requires — and then a
turnComplete event.  The claim (and the spec scenario) requires the history
to now hold the two entries; the code instead commits the transcript values
captured into the onmessage closure when startRecording created the
callbacks object (both empty), so the history stays empty while the running
transcripts are cleared. -/
theorem c1_turnComplete_commits_captured_values :
    (runLiveCallbacks [(0, inputDeltaMsg "hello"), (0, outputDeltaMsg "hi there")]
        openedState).currentInputTranscription = "hello" ∧
    (runLiveCallbacks [(0, inputDeltaMsg "hello"), (0, outputDeltaMsg "hi there")]
        openedState).currentOutputTranscription = "hi there" ∧
    (runLiveCallbacks
        [(0, inputDeltaMsg "hello"), (0, outputDeltaMsg "hi there"), (0, turnCompleteMsg)]
        openedState).transcriptionHistory = [] ∧
    (runLiveCallbacks
        [(0, inputDeltaMsg "hello"), (0, outputDeltaMsg "hi there"), (0, turnCompleteMsg)]
        openedState).currentInputTranscription = "" ∧
    (runLiveCallbacks
        [(0, inputDeltaMsg "hello"), (0, outputDeltaMsg "hi there"), (0, turnCompleteMsg)]
        openedState).currentOutputTranscription = "" :=
  ⟨rfl, rfl, rfl, rfl, rfl⟩

/-- C2 (code bug): the onerror handler sets the error message and then calls
stopRecording() with no argument, so resetError takes its default true and
the just-set error is cleared — the claim requires it to still be set.  The
abnormal-close and unmount teardown paths do pass false and preserve the
error, as the second and third conjuncts record. -/
theorem c2_onerror_teardown_clears_error :
    (onerrorHandler "error" openedState).error = none ∧
    (oncloseHandler 1006 "network" openedState).error =
      some "Live Session closed unexpectedly: 1006 - network" ∧
    (cleanupUnmount { openedState with error := some "Failed to start: boom" }).error =
      some "Failed to start: boom" :=
  ⟨rfl, rfl, rfl⟩

/-- Every start time produced by the scheduler fold is at least the incoming
floor, provided durations are nonnegative. -/
theorem scheduleAll_start_ge :
    ∀ (chunks : List (ℚ × ℚ)), (∀ p ∈ chunks, 0 ≤ p.2) →
      ∀ nst : ℚ, ∀ p ∈ scheduleAll nst chunks, nst ≤ p.1
  | [], _, nst, p, hp => by simp [scheduleAll] at hp
  | c :: rest, hd, nst, p, hp => by
    have hc : (0 : ℚ) ≤ c.2 := hd c (by simp)
    have hrest : ∀ p ∈ rest, (0 : ℚ) ≤ p.2 := fun p hp => hd p (by simp [hp])
    simp only [scheduleAll, List.mem_cons] at hp
    rcases hp with rfl | hp
    · exact le_max_left nst c.1
    · have := scheduleAll_start_ge rest hrest (max nst c.1 + c.2) p hp
      have h1 : nst ≤ max nst c.1 := le_max_left nst c.1
      linarith

/-- From any incoming floor, the scheduler fold yields pairwise ordered,
non-overlapping intervals when all durations are nonnegative. -/
theorem scheduleAll_pairwise :
    ∀ (chunks : List (ℚ × ℚ)), (∀ p ∈ chunks, 0 ≤ p.2) →
      ∀ nst : ℚ, List.Pairwise (fun a b : ℚ × ℚ => a.1 + a.2 ≤ b.1 ∧ a.1 ≤ b.1)
        (scheduleAll nst chunks)
  | [], _, nst => by simp [scheduleAll]
  | c :: rest, hd, nst => by
    have hc : (0 : ℚ) ≤ c.2 := hd c (by simp)
    have hrest : ∀ p ∈ rest, (0 : ℚ) ≤ p.2 := fun p hp => hd p (by simp [hp])
    simp only [scheduleAll]
    refine List.Pairwise.cons ?_ (scheduleAll_pairwise rest hrest (max nst c.1 + c.2))
    intro b hb
    have hge := scheduleAll_start_ge rest hrest (max nst c.1 + c.2) b hb
    exact ⟨hge, by linarith⟩

/-- C3: for every sequence of scheduled chunks, given as pairs of the clock
reading observed at scheduling time (arbitrary) and the buffer duration
(nonnegative, as every AudioBuffer duration is frame count over sample
rate), the buffers produced by the scheduler from the initial floor zero
satisfy, pairwise in order: the earlier interval ends no later than the
later one starts (so the half-open playback intervals never overlap), and
the start times are non-decreasing. -/
theorem c3_playback_no_overlap (chunks : List (ℚ × ℚ))
    (hd : ∀ p ∈ chunks, 0 ≤ p.2) :
    List.Pairwise (fun a b : ℚ × ℚ => a.1 + a.2 ≤ b.1 ∧ a.1 ≤ b.1)
      (scheduleAll 0 chunks) :=
  scheduleAll_pairwise chunks hd 0

/-- C3 witness: three one-second chunks all observed at clock 0 are placed
at start times 0, 1 and 2 (the spec scenario) and satisfy the pairwise
ordering property. -/
theorem c3_playback_no_overlap_witness :
    scheduleAll 0 [((0 : ℚ), (1 : ℚ)), (0, 1), (0, 1)] = [(0, 1), (1, 1), (2, 1)] ∧
    List.Pairwise (fun a b : ℚ × ℚ => a.1 + a.2 ≤ b.1 ∧ a.1 ≤ b.1)
      (scheduleAll 0 [((0 : ℚ), (1 : ℚ)), (0, 1), (0, 1)]) :=
  ⟨by norm_num [scheduleAll],
   c3_playback_no_overlap [((0 : ℚ), (1 : ℚ)), (0, 1), (0, 1)] (by norm_num)⟩

/-- C6: when an interrupted event arrives with non-empty running transcripts
and a non-empty active set, every active source is stopped and the set is
emptied, the next-start floor is reset to zero, both running transcripts are
cleared and the committed history is untouched; and an audio chunk scheduled
next, at a clock reading u at least zero, starts exactly at u. -/
theorem c6_interrupted_flushes_playback (cap : String × String) (s : LiveState)
    (t u : ℚ) (b64 : List Nat)
    (hin : s.currentInputTranscription ≠ "")
    (hout : s.currentOutputTranscription ≠ "")
    (hsrc : s.sources ≠ []) (hu : 0 ≤ u) :
    (onmessageHandler cap t interruptedMsg s).sources = [] ∧
    (onmessageHandler cap t interruptedMsg s).stopped =
      s.stopped ++ s.sources.map SourceNode.id ∧
    (onmessageHandler cap t interruptedMsg s).nextStartTime = 0 ∧
    (onmessageHandler cap t interruptedMsg s).currentInputTranscription = "" ∧
    (onmessageHandler cap t interruptedMsg s).currentOutputTranscription = "" ∧
    (onmessageHandler cap t interruptedMsg s).transcriptionHistory =
      s.transcriptionHistory ∧
    (s.outputCtxOpen = true →
      (onmessageHandler cap u (audioChunkMsg b64)
          (onmessageHandler cap t interruptedMsg s)).sources.map SourceNode.startAt
        = [u]) := by
  have hint : onmessageHandler cap t interruptedMsg s =
      { s with
        stopped := s.stopped ++ s.sources.map SourceNode.id
        sources := []
        nextStartTime := 0
        currentInputTranscription := ""
        currentOutputTranscription := "" } := by
    simp [onmessageHandler, interruptedMsg]
  rw [hint]
  refine ⟨rfl, rfl, rfl, rfl, rfl, rfl, ?_⟩
  intro hctx
  simp [onmessageHandler, audioChunkMsg, hctx, max_eq_right hu]

/-- C6 witness: the interruption theorem applied to a concrete mid-turn
state with one active source and non-empty running transcripts. -/
theorem c6_interrupted_flushes_playback_witness :
    (onmessageHandler ("", "") 3 interruptedMsg
        { openedState with
          currentInputTranscription := "hel"
          currentOutputTranscription := "hi"
          sources := [{ id := 0, startAt := 0, duration := 2 }]
          nextSourceId := 1 }).sources = [] ∧
    (onmessageHandler ("", "") 3 interruptedMsg
        { openedState with
          currentInputTranscription := "hel"
          currentOutputTranscription := "hi"
          sources := [{ id := 0, startAt := 0, duration := 2 }]
          nextSourceId := 1 }).stopped =
      ({ openedState with
          currentInputTranscription := "hel"
          currentOutputTranscription := "hi"
          sources := [{ id := 0, startAt := 0, duration := 2 }]
          nextSourceId := 1 } : LiveState).stopped ++
        (({ openedState with
          currentInputTranscription := "hel"
          currentOutputTranscription := "hi"
          sources := [{ id := 0, startAt := 0, duration := 2 }]
          nextSourceId := 1 } : LiveState).sources.map SourceNode.id) ∧
    (onmessageHandler ("", "") 3 interruptedMsg
        { openedState with
          currentInputTranscription := "hel"
          currentOutputTranscription := "hi"
          sources := [{ id := 0, startAt := 0, duration := 2 }]
          nextSourceId := 1 }).nextStartTime = 0 ∧
    (onmessageHandler ("", "") 3 interruptedMsg
        { openedState with
          currentInputTranscription := "hel"
          currentOutputTranscription := "hi"
          sources := [{ id := 0, startAt := 0, duration := 2 }]
          nextSourceId := 1 }).currentInputTranscription = "" ∧
    (onmessageHandler ("", "") 3 interruptedMsg
        { openedState with
          currentInputTranscription := "hel"
          currentOutputTranscription := "hi"
          sources := [{ id := 0, startAt := 0, duration := 2 }]
          nextSourceId := 1 }).currentOutputTranscription = "" ∧
    (onmessageHandler ("", "") 3 interruptedMsg
        { openedState with
          currentInputTranscription := "hel"
          currentOutputTranscription := "hi"
          sources := [{ id := 0, startAt := 0, duration := 2 }]
          nextSourceId := 1 }).transcriptionHistory =
      ({ openedState with
          currentInputTranscription := "hel"
          currentOutputTranscription := "hi"
          sources := [{ id := 0, startAt := 0, duration := 2 }]
          nextSourceId := 1 } : LiveState).transcriptionHistory ∧
    (({ openedState with
          currentInputTranscription := "hel"
          currentOutputTranscription := "hi"
          sources := [{ id := 0, startAt := 0, duration := 2 }]
          nextSourceId := 1 } : LiveState).outputCtxOpen = true →
      (onmessageHandler ("", "") 5 (audioChunkMsg [])
          (onmessageHandler ("", "") 3 interruptedMsg
            { openedState with
              currentInputTranscription := "hel"
              currentOutputTranscription := "hi"
              sources := [{ id := 0, startAt := 0, duration := 2 }]
              nextSourceId := 1 })).sources.map SourceNode.startAt = [5]) :=
  c6_interrupted_flushes_playback ("", "") _ 3 5 []
    (by decide) (by decide) (by decide) (by norm_num)

/-- C7: stopRecording is idempotent — a second invocation with the same
reset flag leaves the state of the first unchanged — and after the second
invocation the session, capture node, stream and both audio context handles
are null, the active set is empty and the next-start floor is zero. -/
theorem c7_stopRecording_idempotent (s : LiveState) (r : Bool) :
    stopRecording (stopRecording s r) r = stopRecording s r ∧
    (stopRecording (stopRecording s r) r).sessionOpen = false ∧
    (stopRecording (stopRecording s r) r).scriptProcessorOpen = false ∧
    (stopRecording (stopRecording s r) r).streamOpen = false ∧
    (stopRecording (stopRecording s r) r).inputCtxOpen = false ∧
    (stopRecording (stopRecording s r) r).outputCtxOpen = false ∧
    (stopRecording (stopRecording s r) r).sources = [] ∧
    (stopRecording (stopRecording s r) r).nextStartTime = 0 := by
  refine ⟨?_, rfl, rfl, rfl, rfl, rfl, rfl, rfl⟩
  cases r <;> simp [stopRecording]

/-- C8: a capture-processing callback that fires after teardown has nulled
the session handle leaves the state unchanged, in particular forwarding
nothing to the transport. -/
theorem c8_capture_callback_noop_after_teardown (frame : List ℚ) (s : LiveState)
    (h : s.sessionOpen = false) :
    onaudioprocess frame s = s ∧ (onaudioprocess frame s).sent = s.sent := by
  unfold onaudioprocess
  rw [h]
  exact ⟨rfl, rfl⟩

/-- C8 witness: a capture callback firing on the state left by teardown of
an open session changes nothing. -/
theorem c8_capture_callback_noop_witness :
    onaudioprocess [] (stopRecording openedState true) = stopRecording openedState true ∧
    (onaudioprocess [] (stopRecording openedState true)).sent =
      (stopRecording openedState true).sent :=
  c8_capture_callback_noop_after_teardown [] (stopRecording openedState true) rfl

/-- If the operation is first observed done at observation n, the polling
loop returns exactly that operation (given enough fuel). -/
theorem pollVideosLoop_result (ops : Nat → VideosOperation) (n : Nat)
    (hdone : (ops n).done = true) (hbefore : ∀ m, m < n → (ops m).done = false) :
    ∀ fuel i, i ≤ n → n - i < fuel → (pollVideosLoop ops fuel i).1 = some (ops n)
  | 0, i, _, hf => by omega
  | fuel + 1, i, hi, hf => by
    by_cases hd : (ops i).done = true
    · have hin : i = n := by
        by_contra hne
        have hlt : i < n := lt_of_le_of_ne hi hne
        rw [hbefore i hlt] at hd
        exact Bool.false_ne_true hd
      subst hin
      simp [pollVideosLoop, hd]
    · have hin : i < n := by
        rcases lt_or_eq_of_le hi with h | h
        · exact h
        · subst h
          exact absurd hdone hd
      have hrec := pollVideosLoop_result ops n hdone hbefore fuel (i + 1)
        (by omega) (by omega)
      simp [pollVideosLoop, hd, hrec]

/-- Every step the polling loop records is either a wait of exactly 10000
milliseconds or a poll. -/
theorem pollVideosLoop_trace (ops : Nat → VideosOperation) :
    ∀ fuel i, ∀ st ∈ (pollVideosLoop ops fuel i).2,
      st = VideoStep.wait 10000 ∨ st = VideoStep.poll
  | 0, i, st, h => by simp [pollVideosLoop] at h
  | fuel + 1, i, st, h => by
    by_cases hd : (ops i).done = true
    · simp [pollVideosLoop, hd] at h
    · simp only [pollVideosLoop, hd, if_neg, Bool.false_eq_true, if_false,
        List.mem_cons] at h
      rcases h with rfl | rfl | h
      · exact Or.inl rfl
      · exact Or.inr rfl
      · exact pollVideosLoop_trace ops fuel (i + 1) st h

/-- The initiate step never occurs in the polling loop trace. -/
theorem pollVideosLoop_no_initiate (ops : Nat → VideosOperation) (fuel i : Nat) :
    VideoStep.initiate ∉ (pollVideosLoop ops fuel i).2 := by
  intro h
  rcases pollVideosLoop_trace ops fuel i VideoStep.initiate h with h1 | h1 <;>
    exact VideoStep.noConfusion h1

/-- C9: for an operation sequence whose done flag is first observed at
observation n, within the modelled fuel bound, both video generation calls
poll with every wait being exactly 10000 milliseconds (a fixed 10-second
delay), issue exactly one generation request (no automatic retry), and
return the outcome of the completed operation — in particular, when that
operation carries no download link the result is the error saying
No video download link found, not a normal return. -/
theorem c9_video_polling (ops : Nat → VideosOperation) (fuel n : Nat)
    (hn : n < fuel) (hdone : (ops n).done = true)
    (hbefore : ∀ m, m < n → (ops m).done = false) :
    (generateVideoFromText ops fuel).1 = some (videoOutcome (ops n)) ∧
    (generateVideoFromImage ops fuel).1 = some (videoOutcome (ops n)) ∧
    ((ops n).uri = none →
      (generateVideoFromText ops fuel).1 =
          some (Except.error "No video download link found.") ∧
        (generateVideoFromImage ops fuel).1 =
          some (Except.error "No video download link found.")) ∧
    (∀ ms, VideoStep.wait ms ∈ (generateVideoFromText ops fuel).2 → ms = 10000) ∧
    (∀ ms, VideoStep.wait ms ∈ (generateVideoFromImage ops fuel).2 → ms = 10000) ∧
    (generateVideoFromText ops fuel).2.count VideoStep.initiate = 1 ∧
    (generateVideoFromImage ops fuel).2.count VideoStep.initiate = 1 := by
  have hres := pollVideosLoop_result ops n hdone hbefore fuel 0 (Nat.zero_le n)
    (by omega)
  have houtc : (pollVideosLoop ops fuel 0).1.map videoOutcome =
      some (videoOutcome (ops n)) := by
    rw [hres]
    rfl
  have hwait : ∀ ms, VideoStep.wait ms ∈
      VideoStep.initiate :: (pollVideosLoop ops fuel 0).2 → ms = 10000 := by
    intro ms hm
    rcases List.mem_cons.mp hm with h | h
    · exact VideoStep.noConfusion h
    · rcases pollVideosLoop_trace ops fuel 0 (VideoStep.wait ms) h with h1 | h1
      · cases h1
        rfl
      · exact VideoStep.noConfusion h1
  have hcount : (VideoStep.initiate :: (pollVideosLoop ops fuel 0).2).count
      VideoStep.initiate = 1 := by
    rw [List.count_cons_self]
    rw [List.count_eq_zero.mpr (pollVideosLoop_no_initiate ops fuel 0)]
  refine ⟨houtc, houtc, ?_, hwait, hwait, hcount, hcount⟩
  intro huri
  have herr : videoOutcome (ops n) = Except.error "No video download link found." := by
    unfold videoOutcome
    rw [huri]
  rw [herr] at houtc
  exact ⟨houtc, houtc⟩

/-- C9 witness: the polling theorem applied to the concrete oracle that is
done without a link on the third observation, with fuel 4. -/
theorem c9_video_polling_witness :
    (generateVideoFromText sampleVideoOps 4).1 = some (videoOutcome (sampleVideoOps 2)) ∧
    (generateVideoFromImage sampleVideoOps 4).1 = some (videoOutcome (sampleVideoOps 2)) ∧
    ((sampleVideoOps 2).uri = none →
      (generateVideoFromText sampleVideoOps 4).1 =
          some (Except.error "No video download link found.") ∧
        (generateVideoFromImage sampleVideoOps 4).1 =
          some (Except.error "No video download link found.")) ∧
    (∀ ms, VideoStep.wait ms ∈ (generateVideoFromText sampleVideoOps 4).2 → ms = 10000) ∧
    (∀ ms, VideoStep.wait ms ∈ (generateVideoFromImage sampleVideoOps 4).2 → ms = 10000) ∧
    (generateVideoFromText sampleVideoOps 4).2.count VideoStep.initiate = 1 ∧
    (generateVideoFromImage sampleVideoOps 4).2.count VideoStep.initiate = 1 :=
  c9_video_polling sampleVideoOps 4 2 (by omega) rfl
    (by
      intro m hm
      interval_cases m <;> rfl)

/-- The activeRequests counter stays nonnegative along any foldl of the two
updaters, from any nonnegative start. -/
theorem loading_foldl_nonneg :
    ∀ (ops : List LoadingOp) (n : Int), 0 ≤ n → 0 ≤ ops.foldl applyLoadingOp n
  | [], _, h => h
  | op :: rest, n, h => by
    have hstep : 0 ≤ applyLoadingOp n op := by
      cases op
      · simp only [applyLoadingOp]
        omega
      · exact le_max_left 0 (n - 1)
    exact loading_foldl_nonneg rest _ hstep

/-- C10: for every sequence of increment and decrement calls from the
initial counter zero, the counter is never negative, a decrement at zero
leaves it at zero, and the derived isLoading flag is true exactly when the
counter is positive. -/
theorem c10_loading_counter (ops : List LoadingOp) :
    0 ≤ runLoading ops ∧
    applyLoadingOp 0 LoadingOp.dec = 0 ∧
    (isLoadingFlag (runLoading ops) = true ↔ 0 < runLoading ops) := by
  refine ⟨loading_foldl_nonneg ops 0 le_rfl, by simp [applyLoadingOp], ?_⟩
  simp [isLoadingFlag]

end Virel
